import Mathlib

/-!
Verification of the Bayesian statistics module (bayes_stat.py).

The module is embedded shallowly: Python floats are modelled as rationals,
Python dicts as insertion-ordered association lists, and Python runtime
errors (AssertionError, NameError, IndexError, ValueError, ZeroDivisionError)
as an explicit error type threaded through `Except`.
-/

namespace BayesStat

/-- Runtime errors the Python module can raise. -/
inductive PyError where
  | assertionError (msg : String)
  | nameError
  | indexError
  | valueError
  | zeroDivisionError
  deriving DecidableEq, Repr

/-- A Python dict with rational keys and values, modelled as an
insertion-ordered association list with unique keys. -/
abbrev PyDict := List (ℚ × ℚ)

/-- `d[k] = v` on a dict: overwrite in place if the key exists, else append. -/
def dictInsert (d : PyDict) (k v : ℚ) : PyDict :=
  if d.any (fun e => decide (e.1 = k)) then
    d.map (fun e => if e.1 = k then (k, v) else e)
  else
    d ++ [(k, v)]

/-- `d.get(k, dflt)` on a dict. -/
def dictGet (d : PyDict) (k dflt : ℚ) : ℚ :=
  match d.find? (fun e => decide (e.1 = k)) with
  | some e => e.2
  | none => dflt

/-- Python tuple unpacking `v, p = l` of a list into two targets:
raises ValueError unless the list has exactly two elements. -/
def unpack2 (l : List ℚ) : Except PyError (ℚ × ℚ) :=
  match l with
  | [a, b] => .ok (a, b)
  | _ => .error .valueError

/-- `create_disc_distribution(values, probabilities, normalize=False)`.
Faithful to the source, including the assert
`assert not normalize and sum(probabilities) == 1` and the loop
`for v, p in values, probabilities`, which iterates over the two-element
tuple `(values, probabilities)` and unpacks each list. -/
def create_disc_distribution (values probabilities : List ℚ)
    (normalize : Bool) : Except PyError PyDict :=
  let len_p := probabilities.length
  if values.length ≠ len_p then
    .error (.assertionError "The length of values does not match that of probabilities.")
  else if (probabilities.filter (fun i => decide (0 ≤ i))).length ≠ len_p then
    .error (.assertionError "Probabilities must greater than or equal to 0")
  else if ¬ (normalize = false ∧ probabilities.sum = 1) then
    .error (.assertionError "The sum of probabilities is not 1. Use normalize=True")
  else
    let probabilities2 :=
      if normalize then probabilities.map (fun p => p / probabilities.sum)
      else probabilities
    do
      let vp ← unpack2 values
      let d1 := dictInsert [] vp.1 vp.2
      let qp ← unpack2 probabilities2
      .ok (dictInsert d1 qp.1 qp.2)

/-- The accumulation loop of `cal_disc_percentile`: walk the stored pairs,
adding each probability to `total`, returning the first value at which the
running total strictly exceeds `percentage`; fall off the end with `None`. -/
def calDiscPercentileGo (percentage : ℚ) : ℚ → PyDict → Option ℚ
  | _, [] => none
  | total, e :: rest =>
      if total + e.2 > percentage then some e.1
      else calDiscPercentileGo percentage (total + e.2) rest

/-- `cal_disc_percentile(dist, percentage)`: cumulative walk starting from 0. -/
def cal_disc_percentile (dist : PyDict) (percentage : ℚ) : Option ℚ :=
  calDiscPercentileGo percentage 0 dist

/-- Cumulative mass of the first `k` stored pairs of a distribution. -/
def cumMass (dist : PyDict) (k : ℕ) : ℚ :=
  ((dist.take k).map Prod.snd).sum

/-- Python list index assignment `l[i] = v`: IndexError when out of range. -/
def listAssign (l : List ℚ) (i : ℕ) (v : ℚ) : Except PyError (List ℚ) :=
  if i < l.length then .ok (l.set i v) else .error .indexError

/-- The loop of `cal_disc_likelihood`: `likelihood[i] = dist.get(data, 0)`
for each enumerated hypothesis distribution. -/
def calDiscLikelihoodGo (data : ℚ) :
    List PyDict → ℕ → List ℚ → Except PyError (List ℚ)
  | [], _, acc => .ok acc
  | dist :: rest, i, acc => do
      let acc2 ← listAssign acc i (dictGet dist data 0)
      calDiscLikelihoodGo data rest (i + 1) acc2

/-- `cal_disc_likelihood(hypo_dist_list, data)`: starts from the empty list
`likelihood = []` and assigns into it by index. -/
def cal_disc_likelihood (hypo_dist_list : List PyDict) (data : ℚ) :
    Except PyError (List ℚ) :=
  calDiscLikelihoodGo data hypo_dist_list 0 []

/-- `cal_disc_posterior(prior, likelihood)`: length assert, elementwise
product, then division by the sum. Dividing raises ZeroDivisionError only
when some division actually executes, i.e. when the product list is
non-empty and its sum is zero. -/
def cal_disc_posterior (prior likelihood : List ℚ) : Except PyError (List ℚ) :=
  if prior.length ≠ likelihood.length then
    .error (.assertionError "The lengths of prior and likelihood do not match.")
  else if (List.zipWith (fun a b => a * b) prior likelihood).isEmpty then
    .ok []
  else if (List.zipWith (fun a b => a * b) prior likelihood).sum = 0 then
    .error .zeroDivisionError
  else
    .ok ((List.zipWith (fun a b => a * b) prior likelihood).map
      (fun p => p / (List.zipWith (fun a b => a * b) prior likelihood).sum))

/-- The module-level name `significant_level` read by
`cal_disc_credible_interval`: the module never binds it, so looking it up
raises NameError; modelled as an absent optional global. -/
def significant_level : Option ℚ := none

/-- `cal_disc_credible_interval(dist, level)`: the body reads the unbound
global `significant_level`, never the `level` parameter. -/
def cal_disc_credible_interval (dist : PyDict) (level : ℚ) :
    Except PyError (Option ℚ × Option ℚ) :=
  match significant_level with
  | none => .error .nameError
  | some sl =>
      let left := (1 - sl) / 2
      let right := sl + left
      .ok (cal_disc_percentile dist left, cal_disc_percentile dist right)

/-- `dict(zip(hypo_val, posterior))`: zip truncates to the shorter list,
dict construction inserts pairs in order. -/
def dictOfZip (hypo_val posterior : List ℚ) : PyDict :=
  (hypo_val.zip posterior).foldl (fun d e => dictInsert d e.1 e.2) []

/-- `cal_median_disc_posterior(hypo_val, posterior)`: length assert, then
delegates to `cal_disc_credible_interval(dict(zip(hypo_val, posterior)), 0.5)`. -/
def cal_median_disc_posterior (hypo_val posterior : List ℚ) :
    Except PyError (Option ℚ × Option ℚ) :=
  if hypo_val.length ≠ posterior.length then
    .error (.assertionError "The lengths of hypothesises and posterior do not match.")
  else
    cal_disc_credible_interval (dictOfZip hypo_val posterior) (1 / 2)

/-- The `{'alpha': ..., 'beta': ...}` dictionary of the Beta-Binomial part. -/
structure BetaParams where
  alpha : ℚ
  beta : ℚ
  deriving DecidableEq, Repr

/-- `create_beta_distribution_for_binomial(alpha, beta)`. -/
def create_beta_distribution_for_binomial (alpha beta : ℚ) : BetaParams :=
  BetaParams.mk alpha beta

/-- One iteration of the update loop of `cal_beta_binomial_posterior`:
`if i == 1: alpha += 1 else: beta += 1`. -/
def betaStep (m : BetaParams) (i : ℚ) : BetaParams :=
  if i = 1 then BetaParams.mk (m.alpha + 1) m.beta
  else BetaParams.mk m.alpha (m.beta + 1)

/-- `cal_beta_binomial_posterior(beta_dist, data)` as a function of the
dictionary contents: fold the update loop over the outcome list. -/
def cal_beta_binomial_posterior (beta_dist : BetaParams) (data : List ℚ) :
    BetaParams :=
  data.foldl betaStep beta_dist

/-- A heap of Beta dictionaries, addressed by object identity, used to state
the in-place mutation / aliasing behavior of `cal_beta_binomial_posterior`. -/
abbrev BetaHeap := ℕ → BetaParams

/-- One loop iteration of `cal_beta_binomial_posterior` acting on the heap:
the dictionary at `addr` is mutated in place. -/
def betaStepRef (addr : ℕ) (h : BetaHeap) (i : ℚ) : BetaHeap :=
  Function.update h addr (betaStep (h addr) i)

/-- `cal_beta_binomial_posterior` at the reference level: the loop mutates
the dictionary at `addr` and the function returns that same reference. -/
def cal_beta_binomial_posterior_ref (h : BetaHeap) (addr : ℕ)
    (data : List ℚ) : ℕ × BetaHeap :=
  (addr, data.foldl (betaStepRef addr) h)

/-- `cal_mean_beta_binomial_posterior(beta_dist)`:
`alpha / (alpha + beta)`, a ZeroDivisionError when the denominator is 0. -/
def cal_mean_beta_binomial_posterior (beta_dist : BetaParams) :
    Except PyError ℚ :=
  if beta_dist.alpha + beta_dist.beta = 0 then .error .zeroDivisionError
  else .ok (beta_dist.alpha / (beta_dist.alpha + beta_dist.beta))

/-! ### Helper lemmas -/

lemma sum_map_div (l : List ℚ) (s : ℚ) :
    (l.map (fun x => x / s)).sum = l.sum / s := by
  induction l with
  | nil => simp
  | cons a t ih => simp [ih, add_div]

lemma zipWith_mul_map_div (xs ys : List ℚ) (s : ℚ) :
    List.zipWith (fun a b => a * b) (xs.map (fun x => x / s)) ys =
      (List.zipWith (fun a b => a * b) xs ys).map (fun x => x / s) := by
  induction xs generalizing ys with
  | nil => simp
  | cons a t ih =>
      cases ys with
      | nil => simp
      | cons b u => simp [ih, div_mul_eq_mul_div]

lemma zipWith_mul_assoc (a b c : List ℚ) :
    List.zipWith (fun x y => x * y) (List.zipWith (fun x y => x * y) a b) c =
      List.zipWith (fun x y => x * y) a (List.zipWith (fun x y => x * y) b c) := by
  induction a generalizing b c with
  | nil => simp
  | cons x t ih =>
      cases b with
      | nil => simp
      | cons y u =>
          cases c with
          | nil => simp
          | cons z v => simp [ih, mul_assoc]

lemma sum_ne_zero_not_nil {l : List ℚ} (h : l.sum ≠ 0) : l ≠ [] := by
  intro hnil
  rw [hnil] at h
  simp at h

/-- Evaluation of `cal_disc_posterior` in the non-degenerate case. -/
lemma cal_disc_posterior_eq_ok (prior likelihood : List ℚ)
    (hlen : prior.length = likelihood.length)
    (hsum : (List.zipWith (fun a b => a * b) prior likelihood).sum ≠ 0) :
    cal_disc_posterior prior likelihood =
      .ok ((List.zipWith (fun a b => a * b) prior likelihood).map
        (fun p => p / (List.zipWith (fun a b => a * b) prior likelihood).sum)) := by
  have hne : List.zipWith (fun a b => a * b) prior likelihood ≠ [] :=
    sum_ne_zero_not_nil hsum
  unfold cal_disc_posterior
  rw [if_neg (by simp [hlen]), if_neg (by simpa using hne), if_neg hsum]

/-- Closed form of the Beta-Binomial update loop: every element equal to 1
increments alpha, every other element increments beta. -/
lemma beta_posterior_formula :
    ∀ (data : List ℚ) (m : BetaParams),
      cal_beta_binomial_posterior m data =
        BetaParams.mk (m.alpha + data.countP (fun x => decide (x = 1)))
          (m.beta + data.countP (fun x => decide (¬ x = 1))) := by
  intro data
  induction data with
  | nil => intro m; simp [cal_beta_binomial_posterior]
  | cons d ds ih =>
      intro m
      have hstep : cal_beta_binomial_posterior m (d :: ds) =
          cal_beta_binomial_posterior (betaStep m d) ds := rfl
      rw [hstep, ih]
      by_cases hd : d = 1
      · simp [betaStep, hd, List.countP_cons]
        ring
      · simp [betaStep, hd, List.countP_cons]
        ring

lemma countP_one_add_countP_ne_one (l : List ℚ) :
    l.countP (fun x => decide (x = 1)) + l.countP (fun x => decide (¬ x = 1)) =
      l.length := by
  induction l with
  | nil => rfl
  | cons d ds ih =>
      by_cases hd : d = 1
      · rw [List.countP_cons_of_pos _ _ (by simp [hd]),
          List.countP_cons_of_neg _ _ (by simp [hd]), List.length_cons]
        omega
      · rw [List.countP_cons_of_neg _ _ (by simp [hd]),
          List.countP_cons_of_pos _ _ (by simp [hd]), List.length_cons]
        omega

lemma foldl_betaStepRef_at (addr : ℕ) :
    ∀ (data : List ℚ) (h : BetaHeap),
      (data.foldl (betaStepRef addr) h) addr = data.foldl betaStep (h addr) := by
  intro data
  induction data with
  | nil => intro h; rfl
  | cons d ds ih =>
      intro h
      have hupd : (betaStepRef addr h d) addr = betaStep (h addr) d := by
        simp [betaStepRef, Function.update_same]
      calc (List.foldl (betaStepRef addr) (betaStepRef addr h d) ds) addr
          = List.foldl betaStep ((betaStepRef addr h d) addr) ds := ih (betaStepRef addr h d)
        _ = List.foldl betaStep (betaStep (h addr) d) ds := by rw [hupd]

/-- The walk of `cal_disc_percentile` returns the value at the first index
whose cumulative mass (offset by the starting total) strictly exceeds `p`. -/
lemma calDiscPercentileGo_first (p : ℚ) :
    ∀ (dist : PyDict) (k : ℕ) (total : ℚ) (hk : k < dist.length),
      total + cumMass dist (k + 1) > p →
      (∀ j < k, total + cumMass dist (j + 1) ≤ p) →
      calDiscPercentileGo p total dist = some (dist.get ⟨k, hk⟩).1 := by
  intro dist
  induction dist with
  | nil => intro k total hk; simp at hk
  | cons e rest ih =>
      intro k total hk hgt hle
      match k with
      | 0 =>
          have h0 : total + e.2 > p := by
            simpa [cumMass] using hgt
          simp [calDiscPercentileGo, h0]
      | Nat.succ k =>
          have hnot : ¬ (total + e.2 > p) := by
            have h1 := hle 0 (Nat.succ_pos k)
            simp only [cumMass, List.take_succ_cons, List.take_zero, List.map_cons,
              List.map_nil, List.sum_cons, List.sum_nil, add_zero] at h1
            linarith
          have hk2 : k < rest.length := by
            simpa using Nat.lt_of_succ_lt_succ hk
          have hcm : ∀ j : ℕ, cumMass (e :: rest) (j + 1 + 1) = e.2 + cumMass rest (j + 1) := by
            intro j
            simp [cumMass, List.take_succ_cons]
          have hgt2 : (total + e.2) + cumMass rest (k + 1) > p := by
            have := hgt
            rw [hcm k] at this
            linarith
          have hle2 : ∀ j < k, (total + e.2) + cumMass rest (j + 1) ≤ p := by
            intro j hj
            have := hle (j + 1) (Nat.succ_lt_succ hj)
            rw [hcm j] at this
            linarith
          have hrec := ih k (total + e.2) hk2 hgt2 hle2
          simpa [calDiscPercentileGo, if_neg hnot] using hrec

/-! ### Claim theorems -/

/-- C1: for equal-length inputs with non-negative probabilities, calling
`create_disc_distribution` with `normalize = true` always raises the
sum assertion (`assert not normalize and sum(probabilities) == 1` is false
whenever `normalize` is true), so normalization never happens. -/
theorem create_disc_distribution_normalize_raises (values probabilities : List ℚ)
    (hlen : values.length = probabilities.length)
    (hpos : ∀ p ∈ probabilities, 0 ≤ p) :
    create_disc_distribution values probabilities true =
      .error (.assertionError "The sum of probabilities is not 1. Use normalize=True") := by
  have hfil : probabilities.filter (fun i => decide (0 ≤ i)) = probabilities :=
    List.filter_eq_self.mpr (fun a ha => decide_eq_true (hpos a ha))
  simp [create_disc_distribution, hlen, hfil]

/-- Witness for C1 at values `[0, 1]`, probabilities `[1/2, 1/2]`. -/
theorem create_disc_distribution_normalize_raises_witness :
    create_disc_distribution [0, 1] [1/2, 1/2] true =
      .error (.assertionError "The sum of probabilities is not 1. Use normalize=True") :=
  create_disc_distribution_normalize_raises [0, 1] [1/2, 1/2] (by norm_num) (by norm_num)

/-- C2: if `k` is the first index at which cumulative stored mass strictly
exceeds `p`, then `cal_disc_percentile` returns the value stored at `k`. -/
theorem cal_disc_percentile_first_exceed (dist : PyDict) (p : ℚ) (k : ℕ)
    (hk : k < dist.length)
    (hgt : cumMass dist (k + 1) > p)
    (hle : ∀ j < k, cumMass dist (j + 1) ≤ p) :
    cal_disc_percentile dist p = some (dist.get ⟨k, hk⟩).1 := by
  have h := calDiscPercentileGo_first p dist k 0 hk (by simpa using hgt)
    (by intro j hj; simpa using hle j hj)
  simpa [cal_disc_percentile] using h

/-- Witness for C2 on the distribution `[(0, 1/2), (1, 1/2)]` at `p = 1/2`. -/
theorem cal_disc_percentile_first_exceed_witness :
    cal_disc_percentile [(0, 1/2), (1, 1/2)] (1/2) = some 1 := by
  have h := cal_disc_percentile_first_exceed [(0, 1/2), (1, 1/2)] (1/2) 1
    (by norm_num) (by norm_num [cumMass])
    (by intro j hj; interval_cases j; norm_num [cumMass])
  exact h

/-- C3 counterexample: on values `[0, 1, 2]` with probabilities
`[0.2, 0.5, 0.3]`, the 0.6 percentile is 1, not 2 as claimed: the
cumulative mass 0.2 + 0.5 = 0.7 already strictly exceeds 0.6 at value 1. -/
theorem cal_disc_percentile_concrete_cex :
    cal_disc_percentile [(0, 2/10), (1, 5/10), (2, 3/10)] (6/10) = some 1 ∧
      cal_disc_percentile [(0, 2/10), (1, 5/10), (2, 3/10)] (6/10) ≠ some 2 := by
  constructor
  · norm_num [cal_disc_percentile, calDiscPercentileGo]
  · norm_num [cal_disc_percentile, calDiscPercentileGo]

/-- C3 amended: on that distribution the 0.25 percentile is 1 and the 0.6
percentile is also 1. -/
theorem cal_disc_percentile_concrete :
    cal_disc_percentile [(0, 2/10), (1, 5/10), (2, 3/10)] (25/100) = some 1 ∧
      cal_disc_percentile [(0, 2/10), (1, 5/10), (2, 3/10)] (6/10) = some 1 := by
  constructor
  · norm_num [cal_disc_percentile, calDiscPercentileGo]
  · norm_num [cal_disc_percentile, calDiscPercentileGo]

/-- C4: `cal_disc_credible_interval` reads the unbound module global
`significant_level`, so every call raises NameError regardless of the
distribution and of the `level` argument; the supplied level is never used. -/
theorem cal_disc_credible_interval_nameError (dist : PyDict) (level : ℚ) :
    cal_disc_credible_interval dist level = .error .nameError := rfl

/-- C5: `cal_disc_likelihood` assigns by index into the empty list
`likelihood = []`, so it raises IndexError for every non-empty hypothesis
list and returns `[]` (rather than raising) for an empty one. -/
theorem cal_disc_likelihood_indexError (hypo_dist_list : List PyDict) (data : ℚ) :
    cal_disc_likelihood hypo_dist_list data =
      if hypo_dist_list.isEmpty then .ok [] else .error .indexError := by
  cases hypo_dist_list with
  | nil => rfl
  | cons d rest => rfl

/-- C6: sequential Bayesian updating is order-independent: updating with
likelihood vector `l1` and then with `l2` yields exactly the posterior of a
single update with the elementwise product `l1 * l2`, whenever neither
normalizing sum vanishes. -/
theorem cal_disc_posterior_sequential_update (prior l1 l2 : List ℚ)
    (h1 : prior.length = l1.length) (h2 : prior.length = l2.length)
    (hS1 : (List.zipWith (fun a b => a * b) prior l1).sum ≠ 0)
    (hS12 : (List.zipWith (fun a b => a * b) prior
        (List.zipWith (fun a b => a * b) l1 l2)).sum ≠ 0) :
    (do
      let p1 ← cal_disc_posterior prior l1
      cal_disc_posterior p1 l2) =
      cal_disc_posterior prior (List.zipWith (fun a b => a * b) l1 l2) := by
  have e1 := cal_disc_posterior_eq_ok prior l1 h1 hS1
  have hq : ((List.zipWith (fun a b => a * b) prior l1).map
      (fun p => p / (List.zipWith (fun a b => a * b) prior l1).sum)).length = l2.length := by
    rw [List.length_map, List.length_zipWith, ← h1, ← h2, min_self]
  have hassoc : List.zipWith (fun a b => a * b)
      (List.zipWith (fun a b => a * b) prior l1) l2 =
      List.zipWith (fun a b => a * b) prior (List.zipWith (fun a b => a * b) l1 l2) :=
    zipWith_mul_assoc prior l1 l2
  have hraw2 : List.zipWith (fun a b => a * b)
      ((List.zipWith (fun a b => a * b) prior l1).map
        (fun p => p / (List.zipWith (fun a b => a * b) prior l1).sum)) l2 =
      (List.zipWith (fun a b => a * b) prior
        (List.zipWith (fun a b => a * b) l1 l2)).map
        (fun p => p / (List.zipWith (fun a b => a * b) prior l1).sum) := by
    rw [zipWith_mul_map_div, hassoc]
  have hsum2 : (List.zipWith (fun a b => a * b)
      ((List.zipWith (fun a b => a * b) prior l1).map
        (fun p => p / (List.zipWith (fun a b => a * b) prior l1).sum)) l2).sum =
      (List.zipWith (fun a b => a * b) prior
        (List.zipWith (fun a b => a * b) l1 l2)).sum /
        (List.zipWith (fun a b => a * b) prior l1).sum := by
    rw [hraw2, sum_map_div]
  have hsum2_ne : (List.zipWith (fun a b => a * b)
      ((List.zipWith (fun a b => a * b) prior l1).map
        (fun p => p / (List.zipWith (fun a b => a * b) prior l1).sum)) l2).sum ≠ 0 := by
    rw [hsum2]
    exact div_ne_zero hS12 hS1
  have e2 := cal_disc_posterior_eq_ok _ l2 hq hsum2_ne
  have e3 := cal_disc_posterior_eq_ok prior (List.zipWith (fun a b => a * b) l1 l2)
    (by rw [List.length_zipWith, ← h1, ← h2, min_self]) hS12
  have hfun : ((fun p => p / ((List.zipWith (fun a b => a * b) prior
      (List.zipWith (fun a b => a * b) l1 l2)).sum /
        (List.zipWith (fun a b => a * b) prior l1).sum)) ∘
      (fun p => p / (List.zipWith (fun a b => a * b) prior l1).sum)) =
      fun p => p / (List.zipWith (fun a b => a * b) prior
        (List.zipWith (fun a b => a * b) l1 l2)).sum := by
    funext x
    simp only [Function.comp]
    rw [div_div, mul_div_cancel₀ _ hS1]
  calc (do
        let p1 ← cal_disc_posterior prior l1
        cal_disc_posterior p1 l2)
      = cal_disc_posterior ((List.zipWith (fun a b => a * b) prior l1).map
          (fun p => p / (List.zipWith (fun a b => a * b) prior l1).sum)) l2 := by
        rw [e1]
        rfl
    _ = cal_disc_posterior prior (List.zipWith (fun a b => a * b) l1 l2) := by
        rw [e2, e3, hsum2, hraw2, List.map_map, hfun]

/-- Witness for C6: two hypotheses, uniform prior, both likelihood vectors
`[9/10, 1/10]`. -/
theorem cal_disc_posterior_sequential_update_witness :
    (do
      let p1 ← cal_disc_posterior [1/2, 1/2] [9/10, 1/10]
      cal_disc_posterior p1 [9/10, 1/10]) =
      cal_disc_posterior [1/2, 1/2]
        (List.zipWith (fun a b => a * b) [9/10, 1/10] [9/10, 1/10]) :=
  cal_disc_posterior_sequential_update [1/2, 1/2] [9/10, 1/10] [9/10, 1/10]
    (by norm_num) (by norm_num) (by norm_num) (by norm_num)

/-- C7: `cal_median_disc_posterior` delegates to the credible-interval
routine, whose unbound `significant_level` global makes every call raise
NameError; it never produces the single 0.5-percentile value. -/
theorem cal_median_disc_posterior_nameError (hypo_val posterior : List ℚ)
    (hlen : hypo_val.length = posterior.length) :
    cal_median_disc_posterior hypo_val posterior = .error .nameError := by
  simp [cal_median_disc_posterior, hlen, cal_disc_credible_interval, significant_level]

/-- Witness for C7 at `hypo_val = [0]`, `posterior = [1]`. -/
theorem cal_median_disc_posterior_nameError_witness :
    cal_median_disc_posterior [0] [1] = .error .nameError :=
  cal_median_disc_posterior_nameError [0] [1] (by norm_num)

/-- C8 counterexample: updating the model `(alpha=1, beta=1)` with the
non-binary outcome list `[2]` does not fail and does not leave the model
unchanged: it increments beta, returning `(alpha=1, beta=2)`. -/
theorem cal_beta_binomial_posterior_nonbinary_cex :
    cal_beta_binomial_posterior (BetaParams.mk 1 1) [2] = BetaParams.mk 1 2 ∧
      cal_beta_binomial_posterior (BetaParams.mk 1 1) [2] ≠ BetaParams.mk 1 1 := by
  constructor
  · norm_num [cal_beta_binomial_posterior, betaStep]
  · norm_num [cal_beta_binomial_posterior, betaStep]

/-- C8 amended: the update performs no validation and has no failure mode:
for every model and every outcome list, each element equal to 1 increments
alpha and every other element (non-binary values included) increments beta. -/
theorem cal_beta_binomial_posterior_no_validation (m : BetaParams) (data : List ℚ) :
    cal_beta_binomial_posterior m data =
      BetaParams.mk (m.alpha + data.countP (fun x => decide (x = 1)))
        (m.beta + data.countP (fun x => decide (¬ x = 1))) :=
  beta_posterior_formula data m

/-- C9: from the uniform prior `create(1, 1)`, after updating with a binary
outcome list containing `n` ones and `m` zeros, the posterior mean is
`(1 + n) / (2 + n + m)`. -/
theorem cal_mean_beta_binomial_uniform (data : List ℚ)
    (hbin : ∀ x ∈ data, x = 1 ∨ x = 0) :
    cal_mean_beta_binomial_posterior
        (cal_beta_binomial_posterior (create_beta_distribution_for_binomial 1 1) data) =
      .ok ((1 + (data.countP (fun x => decide (x = 1)) : ℚ)) /
        (2 + (data.countP (fun x => decide (x = 1)) : ℚ) +
          (data.countP (fun x => decide (x = 0)) : ℚ))) := by
  have hcong : data.countP (fun x => decide (¬ x = 1)) =
      data.countP (fun x => decide (x = 0)) := by
    refine List.countP_congr ?_
    intro x hx
    rcases hbin x hx with h | h
    · simp [h]
    · simp [h]
  rw [beta_posterior_formula data (create_beta_distribution_for_binomial 1 1), hcong]
  have hden : ((1 : ℚ) + (data.countP (fun x => decide (x = 1)) : ℚ)) +
      ((1 : ℚ) + (data.countP (fun x => decide (x = 0)) : ℚ)) ≠ 0 := by
    positivity
  simp only [create_beta_distribution_for_binomial, cal_mean_beta_binomial_posterior]
  rw [if_neg hden]
  congr 1
  ring

/-- Witness for C9: outcomes `[1, 1, 0]` give posterior mean `3/5 = 0.6`. -/
theorem cal_mean_beta_binomial_uniform_witness :
    cal_mean_beta_binomial_posterior
        (cal_beta_binomial_posterior (create_beta_distribution_for_binomial 1 1) [1, 1, 0]) =
      .ok (3 / 5) := by
  have h := cal_mean_beta_binomial_uniform [1, 1, 0] (by norm_num)
  have hc1 : List.countP (fun x => decide (x = 1)) [(1 : ℚ), 1, 0] = 2 := by
    simp [List.countP_cons]
  have hc0 : List.countP (fun x => decide (x = 0)) [(1 : ℚ), 1, 0] = 1 := by
    simp [List.countP_cons]
  rw [hc1, hc0] at h
  norm_num at h
  exact h

/-- C10: at the reference level, `cal_beta_binomial_posterior` returns the
very address it was given — the caller's retained prior aliases the returned
posterior — and the dictionary at that address is mutated so that alpha
grows by the number of elements equal to 1, beta by the number of all other
elements, hence alpha + beta grows by exactly the length of the data. -/
theorem cal_beta_binomial_posterior_ref_aliasing (h : BetaHeap) (addr : ℕ)
    (data : List ℚ) :
    (cal_beta_binomial_posterior_ref h addr data).1 = addr ∧
    (cal_beta_binomial_posterior_ref h addr data).2 addr =
      cal_beta_binomial_posterior (h addr) data ∧
    ((cal_beta_binomial_posterior_ref h addr data).2 addr).alpha =
      (h addr).alpha + data.countP (fun x => decide (x = 1)) ∧
    ((cal_beta_binomial_posterior_ref h addr data).2 addr).beta =
      (h addr).beta + data.countP (fun x => decide (¬ x = 1)) ∧
    ((cal_beta_binomial_posterior_ref h addr data).2 addr).alpha +
        ((cal_beta_binomial_posterior_ref h addr data).2 addr).beta =
      (h addr).alpha + (h addr).beta + data.length := by
  have hat : (cal_beta_binomial_posterior_ref h addr data).2 addr =
      cal_beta_binomial_posterior (h addr) data :=
    foldl_betaStepRef_at addr data h
  refine ⟨rfl, hat, ?_, ?_, ?_⟩
  · rw [hat, beta_posterior_formula]
  · rw [hat, beta_posterior_formula]
  · rw [hat, beta_posterior_formula]
    have hc := countP_one_add_countP_ne_one data
    have hcq : (data.countP (fun x => decide (x = 1)) : ℚ) +
        (data.countP (fun x => decide (¬ x = 1)) : ℚ) = (data.length : ℚ) := by
      rw [← hc]
      push_cast
      ring
    simp only []
    linarith

end BayesStat
